import Mathlib

/-!
Shallow embedding of the server-helper TUI (`src/main.rs`): the application
state machine (`Menu`, `Installing`, `FileBrowser`, `Restoring`, `Result`),
the two wrap-around list cursors, the directory lister, and the event loop
`run_app`.  External collaborator operations (winget/netbird checks and
installs, backup, restore) are opaque `(success, message)` producers, modelled
as parameters, exactly as the spec scopes them.  The filesystem is modelled as
an oracle for `read_dir` / `is_dir`.
-/

namespace ServerHelper

/-- A filesystem path as its list of components (mirrors `std::path::PathBuf`:
`parent` drops the last component, joining appends one). -/
abbrev Path := List String

/-- `PathBuf::from("..")`: the sentinel pushed by `load_directory` for the
synthetic parent entry. -/
def parentSentinel : Path := [".."]

/-- `Path::parent()`: drop the last component; `None` for the empty path. -/
def parentDir (p : Path) : Option Path :=
  if p.isEmpty then none else some p.dropLast

/-- Helper for `extOfName`: scans the reversed character list of a file name.
On the first dot found, the characters already passed (accumulated back in
original order) form the extension, unless the dot is the leading character of
the name (rest empty), in which case there is no extension — matching Rust's
`Path::extension` rule that a leading dot alone does not start an extension. -/
def extRev (acc : List Char) : List Char → Option (List Char)
  | [] => none
  | c :: rest =>
      if c = '.' then (if rest.isEmpty then none else some acc)
      else extRev (c :: acc) rest

/-- `Path::extension()` applied to a file name: the substring after the last
dot, `none` when there is no dot or the only dot is the leading character. -/
def extOfName (s : String) : Option String :=
  (extRev [] s.toList.reverse).map fun l => String.mk l

/-- `path.extension()` where the file name is the path's last component. -/
def pathExtension (p : Path) : Option String :=
  p.getLast?.bind extOfName

/-- The file filter used by `load_directory`:
`path.extension().map(|e| e == "xml").unwrap_or(false)`. -/
def isXmlFile (p : Path) : Bool := pathExtension p == some "xml"

/-- The order by which `Vec::<PathBuf>::sort` arranges paths: lexicographic on
the component sequence, each component compared character by character (for
UTF-8, byte order and codepoint order coincide). -/
def pathLe (p q : Path) : Prop :=
  p.map String.toList ≤ q.map String.toList

instance : DecidableRel pathLe := fun p q =>
  inferInstanceAs (Decidable (p.map String.toList ≤ q.map String.toList))

instance : IsTotal Path pathLe :=
  ⟨fun p q => le_total (p.map String.toList) (q.map String.toList)⟩

instance : IsTrans Path pathLe :=
  ⟨fun _ _ _ h h2 => le_trans h h2⟩

/-- The filesystem as `load_directory` consumes it: `read_dir` yields the file
names contained in a directory (`none` for an unreadable directory — the code
swallows the error), `is_dir` tests whether a path is a directory. -/
structure FS where
  readDir : Path → Option (List String)
  isDir : Path → Bool

/-- `enum InstallItem { Winget, NetBird }`. -/
inductive InstallItem
  | winget
  | netBird
  deriving DecidableEq, Repr

/-- `enum AppState { Menu, Installing(InstallItem), FileBrowser, Restoring,
Result { success, message } }`. -/
inductive AppState
  | menu
  | installing (item : InstallItem)
  | fileBrowser
  | restoring
  | result (success : Bool) (message : String)
  deriving DecidableEq, Repr

/-- `struct App`: the owning state of the TUI.  `menuSel` / `fileSel` are the
`ListState::selected()` values of the menu and of the file browser. -/
structure App where
  state : AppState
  menuSel : Option Nat
  menuItems : List String
  currentDir : Path
  dirEntries : List Path
  fileSel : Option Nat
  selectedFile : Option Path
  deriving DecidableEq, Repr

/-- The fixed menu built in `App::new`. -/
def defaultMenuItems : List String :=
  ["Check Winget Status", "Install Winget", "Check NetBird Status",
   "Install NetBird", "Backup Server Roles & Features",
   "Restore Server Roles & Features", "Exit"]

/-- `App::new()`: initial state.  The default directory
(`Documents/ServerBackups`) is a host-dependent path, passed as a parameter. -/
def App.new (defaultDir : Path) : App :=
  { state := .menu
    menuSel := some 0
    menuItems := defaultMenuItems
    currentDir := defaultDir
    dirEntries := []
    fileSel := none
    selectedFile := none }

/-- `App::next`: advance the menu cursor, wrapping past the end to 0. -/
def App.next (a : App) : App :=
  let i :=
    match a.menuSel with
    | some i => if i ≥ a.menuItems.length - 1 then 0 else i + 1
    | none => 0
  { a with menuSel := some i }

/-- `App::previous`: retreat the menu cursor, wrapping 0 to the last index. -/
def App.previous (a : App) : App :=
  let i :=
    match a.menuSel with
    | some i => if i = 0 then a.menuItems.length - 1 else i - 1
    | none => 0
  { a with menuSel := some i }

/-- `App::next` with the `usize` arithmetic modelled fallibly: the expression
`self.menu_items.len() - 1` is evaluated in the `Some(i)` branch, and when the
menu list is empty that subtraction underflows — a panic in debug builds,
modelled as `none` (release builds wrap to `usize::MAX` instead, making the
comparison false and the selection `Some(i + 1)`; under neither semantics does
the selection become "none").  On a non-empty list this agrees with
`App.next` (`menuNextChecked_eq_next`). -/
def menuNextChecked (a : App) : Option App :=
  match a.menuSel with
  | some i =>
      match a.menuItems.length with
      | 0 => none
      | n + 1 => some { a with menuSel := some (if i ≥ n then 0 else i + 1) }
  | none => some { a with menuSel := some 0 }

/-- `App::previous` with the `usize` arithmetic modelled fallibly:
`self.menu_items.len() - 1` is evaluated only when the selected index is 0,
and underflows on an empty list (debug panic, modelled as `none`); with a
selected index `i > 0` no subtraction of the length occurs and the selection
becomes `Some(i - 1)` even on an empty list.  On a non-empty list this agrees
with `App.previous` (`menuPreviousChecked_eq_previous`). -/
def menuPreviousChecked (a : App) : Option App :=
  match a.menuSel with
  | some i =>
      if i = 0 then
        match a.menuItems.length with
        | 0 => none
        | n + 1 => some { a with menuSel := some n }
      else some { a with menuSel := some (i - 1) }
  | none => some { a with menuSel := some 0 }

/-- The enumeration loop of `load_directory`: walk the names `read_dir`
yielded, pushing directories into the first vector and `.xml` files into the
second, in traversal order. -/
def partitionEntries (fs : FS) (d : Path) (names : List String) :
    List Path × List Path :=
  names.foldl
    (fun (acc : List Path × List Path) name =>
      let path := d ++ [name]
      if fs.isDir path then (acc.1 ++ [path], acc.2)
      else if isXmlFile path then (acc.1, acc.2 ++ [path])
      else acc)
    ([], [])

/-- `App::load_directory`: clear the entries; push `".."` if the current
directory has a parent whose rendering is non-empty; read the directory,
partitioning readable entries into subdirectories and `.xml` files; sort both
groups and append directories first, then files; select index 0 iff the
resulting list is non-empty. -/
def loadDirectory (fs : FS) (a : App) : App :=
  let entries : List Path :=
    match parentDir a.currentDir with
    | some par => if par.isEmpty then [] else [parentSentinel]
    | none => []
  let entries : List Path :=
    match fs.readDir a.currentDir with
    | some names =>
        let acc := partitionEntries fs a.currentDir names
        entries ++ List.insertionSort pathLe acc.1
          ++ List.insertionSort pathLe acc.2
    | none => entries
  { a with
    dirEntries := entries
    fileSel := if entries.isEmpty then none else some 0 }

/-- `App::file_browser_next`: no-op on an empty list, else advance wrapping. -/
def App.fileBrowserNext (a : App) : App :=
  if a.dirEntries.isEmpty then a
  else
    let i :=
      match a.fileSel with
      | some i => if i ≥ a.dirEntries.length - 1 then 0 else i + 1
      | none => 0
    { a with fileSel := some i }

/-- `App::file_browser_previous`: no-op on an empty list, else retreat
wrapping. -/
def App.fileBrowserPrevious (a : App) : App :=
  if a.dirEntries.isEmpty then a
  else
    let i :=
      match a.fileSel with
      | some i => if i = 0 then a.dirEntries.length - 1 else i - 1
      | none => 0
    { a with fileSel := some i }

/-- `App::file_browser_select`: resolve the highlighted entry.  The `".."`
sentinel navigates to the parent (when one exists) and re-lists; a directory
entry navigates into it and re-lists; anything else is returned as the chosen
file, with no navigation. -/
def fileBrowserSelect (fs : FS) (a : App) : App × Option Path :=
  match a.fileSel with
  | some i =>
      match a.dirEntries[i]? with
      | some path =>
          if path = parentSentinel then
            match parentDir a.currentDir with
            | some par => (loadDirectory fs { a with currentDir := par }, none)
            | none => (a, none)
          else if fs.isDir path then
            (loadDirectory fs { a with currentDir := path }, none)
          else
            (a, some path)
      | none => (a, none)
  | none => (a, none)

/-- The key presses `run_app` distinguishes; `other` stands for every other
key code (all ignored). -/
inductive Key
  | up
  | down
  | enter
  | esc
  | backspace
  | keyQ
  | keyJ
  | keyK
  | other
  deriving DecidableEq, Repr

/-- Observable effects of one pass through the loop body: frames drawn by
`terminal.draw` and the synchronous collaborator calls. -/
inductive Event
  | drawUI (s : AppState)
  | drawInstallWait (item : InstallItem)
  | drawRestoreWait
  | callCheckWinget
  | callCheckNetbird
  | callBackup
  | callInstall (item : InstallItem)
  | callRestore (p : Path)
  deriving DecidableEq, Repr

/-- The opaque collaborator operations, each returning `(success, message)`
as the spec's external-interface contract states. -/
structure Ops where
  checkWinget : Bool × String
  checkNetbird : Bool × String
  installWinget : Bool × String
  installNetbird : Bool × String
  backupRoles : Bool × String
  restoreRoles : Path → Bool × String

/-- The key-event handling `match` of `run_app`.  Returns `none` when the loop
returns (quit), otherwise the updated app, together with the collaborator
calls performed during input handling. -/
def handleKey (fs : FS) (ops : Ops) (a : App) (k : Key) :
    Option App × List Event :=
  match a.state with
  | .menu =>
      match k with
      | .keyQ => (none, [])
      | .down => (some a.next, [])
      | .keyJ => (some a.next, [])
      | .up => (some a.previous, [])
      | .keyK => (some a.previous, [])
      | .enter =>
          match a.menuSel with
          | some 0 =>
              (some { a with state := .result ops.checkWinget.1 ops.checkWinget.2 },
               [.callCheckWinget])
          | some 1 => (some { a with state := .installing .winget }, [])
          | some 2 =>
              (some { a with state := .result ops.checkNetbird.1 ops.checkNetbird.2 },
               [.callCheckNetbird])
          | some 3 => (some { a with state := .installing .netBird }, [])
          | some 4 =>
              (some { a with state := .result ops.backupRoles.1 ops.backupRoles.2 },
               [.callBackup])
          | some 5 => (some { loadDirectory fs a with state := .fileBrowser }, [])
          | some 6 => (none, [])
          | _ => (some a, [])
      | _ => (some a, [])
  | .fileBrowser =>
      match k with
      | .esc => (some { a with state := .menu }, [])
      | .keyQ => (some { a with state := .menu }, [])
      | .down => (some a.fileBrowserNext, [])
      | .keyJ => (some a.fileBrowserNext, [])
      | .up => (some a.fileBrowserPrevious, [])
      | .keyK => (some a.fileBrowserPrevious, [])
      | .enter =>
          match fileBrowserSelect fs a with
          | (a1, some file) =>
              (some { a1 with selectedFile := some file, state := .restoring }, [])
          | (a1, none) => (some a1, [])
      | .backspace =>
          match parentDir a.currentDir with
          | some par => (some (loadDirectory fs { a with currentDir := par }), [])
          | none => (some a, [])
      | _ => (some a, [])
  | .restoring => (some a, [])
  | .installing _ => (some a, [])
  | .result _ _ =>
      match k with
      | .enter => (some { a with state := .menu }, [])
      | .esc => (some { a with state := .menu }, [])
      | .keyQ => (some { a with state := .menu }, [])
      | _ => (some a, [])

/-- The deferred tail of the loop body: if the state is `Installing(item)`,
draw the "please wait" frame, run the blocking install, and move to `Result`;
if it is `Restoring`, draw the wait frame, then run the restore on the
selected file, or synthesize the local failure when none is selected. -/
def deferredPhase (ops : Ops) (a : App) : App × List Event :=
  match a.state with
  | .installing item =>
      let r := match item with
        | .winget => ops.installWinget
        | .netBird => ops.installNetbird
      ({ a with state := .result r.1 r.2 },
       [.drawInstallWait item, .callInstall item])
  | .restoring =>
      match a.selectedFile with
      | some file =>
          let r := ops.restoreRoles file
          ({ a with state := .result r.1 r.2 },
           [.drawRestoreWait, .callRestore file])
      | none =>
          ({ a with state := .result false "No file selected." },
           [.drawRestoreWait])
  | _ => (a, [])

/-- One iteration of the `run_app` loop: draw the current frame, handle at
most one key press (`none`: the 100 ms poll timed out or the event was not a
press), then run the deferred `Installing` / `Restoring` tail.  `none` as
result means the loop returned. -/
def step (fs : FS) (ops : Ops) (a : App) (k : Option Key) :
    Option App × List Event :=
  let top : List Event := [.drawUI a.state]
  let handled :=
    match k with
    | some key => handleKey fs ops a key
    | none => ((some a : Option App), ([] : List Event))
  match handled with
  | (none, ev1) => (none, top ++ ev1)
  | (some a1, ev1) =>
      let d := deferredPhase ops a1
      (some d.1, top ++ ev1 ++ d.2)

/-- The states an execution of `run_app` can pass through, starting from
`App::new`, observed at phase granularity: after the key-handling `match` and
after the deferred `Installing`/`Restoring` tail.  Every state of a real run
(each loop iteration composes one optional `handleKey` with one
`deferredPhase`) is reachable in this sense.  The filesystem, the collaborator
results and the input may differ at every iteration. -/
inductive Reachable (defaultDir : Path) : App → Prop
  | init : Reachable defaultDir (App.new defaultDir)
  | handle (a a1 : App) (fs : FS) (ops : Ops) (k : Key) (ev : List Event) :
      Reachable defaultDir a → handleKey fs ops a k = (some a1, ev) →
      Reachable defaultDir a1
  | deferred (a a2 : App) (ops : Ops) (ev : List Event) :
      Reachable defaultDir a → deferredPhase ops a = (a2, ev) →
      Reachable defaultDir a2

/-! ## Derived descriptions of the listing, and sample fixtures -/

/-- The subdirectory full paths among a directory's entries, in `read_dir`
traversal order. -/
def dirsOf (fs : FS) (d : Path) (names : List String) : List Path :=
  names.filterMap fun n =>
    if fs.isDir (d ++ [n]) then some (d ++ [n]) else none

/-- The matching `.xml` file full paths among a directory's entries, in
`read_dir` traversal order. -/
def xmlFilesOf (fs : FS) (d : Path) (names : List String) : List Path :=
  names.filterMap fun n =>
    if fs.isDir (d ++ [n]) then none
    else if isXmlFile (d ++ [n]) then some (d ++ [n]) else none

/-- A sample non-root directory, used by the concrete scenarios. -/
def sampleDir : Path := ["C:", "Backups"]

/-- A sample filesystem: `sampleDir` contains (in raw `read_dir` order) the
files `b.xml`, `a.xml` and the subdirectories `sub2`, `sub1`. -/
def sampleFS : FS :=
  { readDir := fun p =>
      if p = sampleDir then some ["b.xml", "a.xml", "sub2", "sub1"] else none
    isDir := fun p =>
      p = sampleDir ++ ["sub1"] || p = sampleDir ++ ["sub2"] }

/-- The app sitting in the file browser over `sampleDir`. -/
def sampleBrowser : App :=
  { App.new sampleDir with state := .fileBrowser }

/-- The run invariant carried by every execution: an empty browser listing has
no selection, and in `Restoring` a file is always selected. -/
def StateInv (a : App) : Prop :=
  (a.dirEntries = [] → a.fileSel = none)
  ∧ (a.state = .restoring → ∃ f, a.selectedFile = some f)

/-- Default directory for the concrete run fixtures. -/
def wDir : Path := ["C:", "Docs"]

/-- A fixture filesystem: `wDir` contains the single file `a.xml`. -/
def wFS : FS :=
  { readDir := fun p => if p = wDir then some ["a.xml"] else none
    isDir := fun _ => false }

/-- Fixture collaborator results. -/
def wOps : Ops :=
  { checkWinget := (true, "w"), checkNetbird := (true, "n")
    installWinget := (true, "iw"), installNetbird := (true, "in")
    backupRoles := (true, "b"), restoreRoles := fun _ => (true, "r") }

/-- The fixture app sitting in `Menu` with the cursor on "Install Winget". -/
def wMenu1 : App := { App.new wDir with menuSel := some 1 }

/-- The fixture app after confirming "Restore Server Roles & Features":
browsing `wDir`, cursor on the parent entry. -/
def wBrowser : App :=
  { loadDirectory wFS ((((((App.new wDir).next).next).next).next).next)
      with state := .fileBrowser }

/-- The fixture app after moving down to `a.xml` and confirming it:
`Restoring` with the file recorded. -/
def wRestoring : App :=
  { wBrowser.fileBrowserNext
      with selectedFile := some ["C:", "Docs", "a.xml"], state := .restoring }

/-- A forced invariant violation: `Restoring` with no file selected. -/
def cRestoring : App := { App.new wDir with state := .restoring }

/-- A fixture app in `Menu` on the restore item, with a stale selected file
left over from an earlier restore. -/
def menuSel5App : App :=
  { App.new wDir with menuSel := some 5, selectedFile := some ["C:", "old.xml"] }

/-- A fixture app with an empty menu list and a live selection, the length-0
configuration the selectable-list contract quantifies over. -/
def emptyMenu : App := { App.new wDir with menuItems := [], menuSel := some 1 }

theorem partitionEntries_foldl (fs : FS) (d : Path) (names : List String) :
    ∀ acc : List Path × List Path,
      names.foldl
        (fun (acc : List Path × List Path) name =>
          let path := d ++ [name]
          if fs.isDir path then (acc.1 ++ [path], acc.2)
          else if isXmlFile path then (acc.1, acc.2 ++ [path])
          else acc)
        acc
      = (acc.1 ++ dirsOf fs d names, acc.2 ++ xmlFilesOf fs d names) := by
  induction names with
  | nil => intro acc; simp [dirsOf, xmlFilesOf]
  | cons n ns ih =>
      intro acc
      simp only [List.foldl_cons]
      by_cases h1 : fs.isDir (d ++ [n])
      · simp [h1, ih, dirsOf, xmlFilesOf, List.filterMap_cons]
      · by_cases h2 : isXmlFile (d ++ [n])
        · simp [h1, h2, ih, dirsOf, xmlFilesOf, List.filterMap_cons]
        · simp [h1, h2, ih, dirsOf, xmlFilesOf, List.filterMap_cons]

theorem partitionEntries_eq (fs : FS) (d : Path) (names : List String) :
    partitionEntries fs d names = (dirsOf fs d names, xmlFilesOf fs d names) := by
  simpa [partitionEntries] using partitionEntries_foldl fs d names ([], [])

/-! ## Lemmas about the directory lister -/

/-- The listing decomposes as: optional parent entry, then the sorted
subdirectories, then the sorted `.xml` files. -/
theorem loadDirectory_decomp (fs : FS) (a : App) :
    (loadDirectory fs a).dirEntries
      = (match parentDir a.currentDir with
         | some par => if par.isEmpty then [] else [parentSentinel]
         | none => [])
        ++ List.insertionSort pathLe
            (dirsOf fs a.currentDir ((fs.readDir a.currentDir).getD []))
        ++ List.insertionSort pathLe
            (xmlFilesOf fs a.currentDir ((fs.readDir a.currentDir).getD [])) := by
  rcases hr : fs.readDir a.currentDir with _ | names
  · simp [loadDirectory, hr, dirsOf, xmlFilesOf]
  · simp [loadDirectory, hr, partitionEntries_eq]

theorem mem_dirsOf {fs : FS} {d p : Path} {names : List String} :
    p ∈ dirsOf fs d names ↔ ∃ n ∈ names, p = d ++ [n] ∧ fs.isDir p = true := by
  simp only [dirsOf, List.mem_filterMap]
  constructor
  · rintro ⟨n, hn, hf⟩
    by_cases hdir : fs.isDir (d ++ [n]) <;> simp [hdir] at hf
    exact ⟨n, hn, hf.symm, hf ▸ hdir⟩
  · rintro ⟨n, hn, rfl, hdir⟩
    exact ⟨n, hn, by simp [hdir]⟩

theorem mem_xmlFilesOf {fs : FS} {d p : Path} {names : List String} :
    p ∈ xmlFilesOf fs d names ↔
      ∃ n ∈ names, p = d ++ [n] ∧ fs.isDir p = false ∧ isXmlFile p = true := by
  simp only [xmlFilesOf, List.mem_filterMap]
  constructor
  · rintro ⟨n, hn, hf⟩
    by_cases hdir : fs.isDir (d ++ [n]) <;> simp [hdir] at hf
    by_cases hxml : isXmlFile (d ++ [n]) <;> simp [hxml] at hf
    exact ⟨n, hn, hf.symm, by simp [hf ▸ hdir], hf ▸ hxml⟩
  · rintro ⟨n, hn, rfl, hdir, hxml⟩
    refine ⟨n, hn, ?_⟩
    simp [hdir, hxml]

/-! ## Claim theorems: directory lister -/

/-- Claim C3: for every directory, the listing is: a synthetic parent entry
first (present iff the directory has a parent and that parent is not the
empty path), then all subdirectories sorted lexicographically by full path,
then all matching `.xml` files sorted lexicographically by full path; and the
claim's concrete scenario: a non-root directory containing
`["b.xml", "a.xml", "sub2", "sub1"]` lists as
`["..", "sub1", "sub2", "a.xml", "b.xml"]`. -/
theorem listing_order (fs : FS) (a : App) :
    ∃ pe ds xs : List Path,
      (loadDirectory fs a).dirEntries = pe ++ ds ++ xs
        ∧ (pe = [parentSentinel] ∨ pe = [])
        ∧ (pe = [parentSentinel] ↔
            ∃ par, parentDir a.currentDir = some par ∧ par.isEmpty = false)
        ∧ List.Perm ds (dirsOf fs a.currentDir ((fs.readDir a.currentDir).getD []))
        ∧ List.Sorted pathLe ds
        ∧ List.Perm xs (xmlFilesOf fs a.currentDir ((fs.readDir a.currentDir).getD []))
        ∧ List.Sorted pathLe xs
        ∧ (loadDirectory sampleFS sampleBrowser).dirEntries
            = [parentSentinel, sampleDir ++ ["sub1"], sampleDir ++ ["sub2"],
               sampleDir ++ ["a.xml"], sampleDir ++ ["b.xml"]] := by
  refine ⟨_, _, _, loadDirectory_decomp fs a, ?_, ?_,
    List.perm_insertionSort _ _, List.sorted_insertionSort _ _,
    List.perm_insertionSort _ _, List.sorted_insertionSort _ _, by decide⟩
  · rcases hp : parentDir a.currentDir with _ | par
    · simp
    · by_cases he : par.isEmpty <;> simp [he]
  · rcases hp : parentDir a.currentDir with _ | par
    · simp
    · cases par <;> simp [parentSentinel]

/-- Claim C8: the listed sequence contains no file entry whose extension does
not match `.xml` — every listed entry is the parent sentinel, a directory, or
a file whose extension is literally `"xml"` (which in particular matches
`.xml` case-insensitively) — and every subdirectory yielded by `read_dir`
always appears in the listing. -/
theorem xml_filter_invariant (fs : FS) (a : App) :
    (∀ p ∈ (loadDirectory fs a).dirEntries,
        p = parentSentinel ∨ fs.isDir p = true ∨ pathExtension p = some "xml")
  ∧ ∀ n ∈ (fs.readDir a.currentDir).getD [],
      fs.isDir (a.currentDir ++ [n]) = true →
      a.currentDir ++ [n] ∈ (loadDirectory fs a).dirEntries := by
  constructor
  · intro p hp
    rw [loadDirectory_decomp] at hp
    simp only [List.mem_append, List.mem_insertionSort] at hp
    rcases hp with (hpe | hd) | hx
    · left
      rcases hpar : parentDir a.currentDir with _ | par <;> rw [hpar] at hpe
      · simp at hpe
      · by_cases he : par.isEmpty <;> simp [he] at hpe
        exact hpe
    · rcases mem_dirsOf.mp hd with ⟨n, _, _, hdir⟩
      exact Or.inr (Or.inl hdir)
    · rcases mem_xmlFilesOf.mp hx with ⟨n, _, _, _, hxml⟩
      refine Or.inr (Or.inr ?_)
      simpa [isXmlFile, beq_iff_eq] using hxml
  · intro n hn hdir
    rw [loadDirectory_decomp]
    simp only [List.mem_append, List.mem_insertionSort]
    exact Or.inl (Or.inr (mem_dirsOf.mpr ⟨n, hn, rfl, hdir⟩))

/-- Witness for C8 at the sample directory: the subdirectory `sub1`
appears in the listing. -/
theorem xml_filter_invariant_witness :
    sampleDir ++ ["sub1"] ∈ (loadDirectory sampleFS sampleBrowser).dirEntries :=
  (xml_filter_invariant sampleFS sampleBrowser).2 "sub1" (by decide) (by decide)

/-! ## The run invariant and its preservation -/

theorem loadDirectory_state (fs : FS) (a : App) :
    (loadDirectory fs a).state = a.state := rfl

theorem loadDirectory_selectedFile (fs : FS) (a : App) :
    (loadDirectory fs a).selectedFile = a.selectedFile := rfl

theorem loadDirectory_fileSel (fs : FS) (a : App) :
    (loadDirectory fs a).fileSel
      = if (loadDirectory fs a).dirEntries.isEmpty then none else some 0 := rfl

theorem loadDirectory_inv1 (fs : FS) (a : App) :
    (loadDirectory fs a).dirEntries = [] → (loadDirectory fs a).fileSel = none := by
  intro h
  rw [loadDirectory_fileSel, h]
  simp

theorem fileBrowserNext_inv (a : App) (ha : StateInv a) :
    StateInv a.fileBrowserNext := by
  unfold App.fileBrowserNext
  split
  · exact ha
  · rename_i hne
    refine ⟨?_, ha.2⟩
    intro h
    simp only at h
    rw [h] at hne
    simp at hne

theorem fileBrowserPrevious_inv (a : App) (ha : StateInv a) :
    StateInv a.fileBrowserPrevious := by
  unfold App.fileBrowserPrevious
  split
  · exact ha
  · rename_i hne
    refine ⟨?_, ha.2⟩
    intro h
    simp only at h
    rw [h] at hne
    simp at hne

theorem loadDirectory_inv (fs : FS) (a : App) (ha : StateInv a) :
    StateInv (loadDirectory fs a) := by
  refine ⟨loadDirectory_inv1 fs a, ?_⟩
  rw [loadDirectory_state, loadDirectory_selectedFile]
  exact ha.2

theorem next_inv (a : App) (ha : StateInv a) : StateInv a.next := by
  unfold App.next
  exact ⟨ha.1, ha.2⟩

theorem previous_inv (a : App) (ha : StateInv a) : StateInv a.previous := by
  unfold App.previous
  exact ⟨ha.1, ha.2⟩

theorem setState_inv (a : App) (s : AppState) (hs : ¬ s = .restoring)
    (ha : StateInv a) : StateInv { a with state := s } :=
  ⟨ha.1, fun hr => absurd hr hs⟩

theorem fileBrowserSelect_some_eq (fs : FS) (a b : App) (p : Path)
    (h : fileBrowserSelect fs a = (b, some p)) : b = a := by
  unfold fileBrowserSelect at h
  repeat' split at h
  all_goals simp only [Prod.mk.injEq] at h
  all_goals first
    | exact Option.noConfusion h.2
    | exact h.1.symm

theorem fileBrowserSelect_none_inv (fs : FS) (a b : App)
    (h : fileBrowserSelect fs a = (b, none)) (ha : StateInv a) : StateInv b := by
  unfold fileBrowserSelect at h
  repeat' split at h
  all_goals simp only [Prod.mk.injEq] at h
  all_goals first
    | exact Option.noConfusion h.2
    | (obtain ⟨h1, -⟩ := h
       cases h1
       first
         | exact ha
         | exact loadDirectory_inv fs _ ⟨ha.1, ha.2⟩)

theorem handleKey_inv (fs : FS) (ops : Ops) (a a1 : App) (k : Key)
    (ev : List Event) (h : handleKey fs ops a k = (some a1, ev))
    (ha : StateInv a) : StateInv a1 := by
  unfold handleKey at h
  repeat' split at h
  all_goals simp only [Prod.mk.injEq] at h
  all_goals try exact Option.noConfusion h.1
  all_goals obtain ⟨h1, -⟩ := h
  all_goals cases Option.some.inj h1
  all_goals first
    | exact ha
    | exact next_inv a ha
    | exact previous_inv a ha
    | exact fileBrowserNext_inv a ha
    | exact fileBrowserPrevious_inv a ha
    | exact setState_inv a _ (by simp) ha
    | exact ⟨loadDirectory_inv1 fs a, fun hc => absurd hc (by simp)⟩
    | exact loadDirectory_inv fs _ ⟨ha.1, ha.2⟩
    | (rename_i heq
       first
         | (obtain rfl := fileBrowserSelect_some_eq fs a _ _ heq
            exact ⟨ha.1, fun _ => ⟨_, rfl⟩⟩)
         | exact fileBrowserSelect_none_inv fs a _ heq ha)

theorem deferredPhase_inv (ops : Ops) (a a2 : App) (ev : List Event)
    (h : deferredPhase ops a = (a2, ev)) (ha : StateInv a) : StateInv a2 := by
  unfold deferredPhase at h
  repeat' split at h
  all_goals simp only [Prod.mk.injEq] at h
  all_goals obtain ⟨h1, -⟩ := h
  all_goals cases h1
  all_goals first
    | exact ha
    | exact setState_inv a _ (by simp) ha

theorem reachable_inv (d : Path) (a : App) (h : Reachable d a) : StateInv a := by
  induction h with
  | init => exact ⟨fun _ => rfl, fun hc => by simp [App.new] at hc⟩
  | handle a a1 fs ops k ev _ hstep ih => exact handleKey_inv fs ops a a1 k ev hstep ih
  | deferred a a2 ops ev _ hstep ih => exact deferredPhase_inv ops a a2 ev hstep ih

/-- The fixture `Restoring` state is reachable from the initial state: five
"down" presses, confirm on the restore item, one "down" in the browser,
confirm on `a.xml`. -/
theorem wRestoring_reachable : Reachable wDir wRestoring := by
  have h0 : Reachable wDir (App.new wDir) := .init
  have h1 := Reachable.handle _ _ wFS wOps .down [] h0 rfl
  have h2 := Reachable.handle _ _ wFS wOps .down [] h1 rfl
  have h3 := Reachable.handle _ _ wFS wOps .down [] h2 rfl
  have h4 := Reachable.handle _ _ wFS wOps .down [] h3 rfl
  have h5 := Reachable.handle _ _ wFS wOps .down [] h4 rfl
  have h6 : Reachable wDir wBrowser := Reachable.handle _ _ wFS wOps .enter [] h5 rfl
  have h7 : Reachable wDir wBrowser.fileBrowserNext :=
    Reachable.handle _ _ wFS wOps .down [] h6 rfl
  exact Reachable.handle _ _ wFS wOps .enter [] h7 (by decide)

/-! ## Claim theorems: state machine -/

/-- Claim C1: in `Installing(item)` or `Restoring`, no key input causes any
transition (the key handler returns the app unchanged, performs no
collaborator call and never quits), and every loop iteration from such a
state ends in `Result` — entered once, never skipped — via the deferred
phase. -/
theorem installing_restoring_only_to_result (fs : FS) (ops : Ops) (a : App)
    (h : (∃ it, a.state = .installing it) ∨ a.state = .restoring) :
    (∀ k, handleKey fs ops a k = (some a, []))
  ∧ ∃ s m, ∀ k : Option Key, (step fs ops a k).1
      = some { a with state := .result s m } := by
  have habs : ∀ k, handleKey fs ops a k = (some a, []) := by
    intro k
    unfold handleKey
    rcases h with ⟨it, hs⟩ | hs <;> simp only [hs]
  refine ⟨habs, ?_⟩
  rcases h with ⟨it, hs⟩ | hs
  · cases it
    case winget =>
      refine ⟨ops.installWinget.1, ops.installWinget.2, fun k => ?_⟩
      unfold step
      cases k <;> simp only [habs] <;> unfold deferredPhase <;> simp [hs]
    case netBird =>
      refine ⟨ops.installNetbird.1, ops.installNetbird.2, fun k => ?_⟩
      unfold step
      cases k <;> simp only [habs] <;> unfold deferredPhase <;> simp [hs]
  · cases hsel : a.selectedFile
    case none =>
      refine ⟨false, "No file selected.", fun k => ?_⟩
      unfold step
      cases k <;> simp only [habs] <;> unfold deferredPhase <;> simp [hs, hsel]
    case some f =>
      refine ⟨(ops.restoreRoles f).1, (ops.restoreRoles f).2, fun k => ?_⟩
      unfold step
      cases k <;> simp only [habs] <;> unfold deferredPhase <;> simp [hs, hsel]

/-- Witness for C1 at the reachable fixture `Restoring` state. -/
theorem installing_restoring_only_to_result_witness :
    (∀ k, handleKey wFS wOps wRestoring k = (some wRestoring, []))
  ∧ ∃ s m, ∀ k : Option Key, (step wFS wOps wRestoring k).1
      = some { wRestoring with state := .result s m } :=
  installing_restoring_only_to_result wFS wOps wRestoring (Or.inr rfl)

/-- Claim C2: confirming in `Menu` on a long-running install item only moves
the state to `Installing(item)` — no collaborator call happens during input
handling — and in the ensuing deferred phase the "please wait" frame is drawn
strictly before the blocking install call, after which the state is `Result`
with exactly the pair the collaborator returned. -/
theorem long_running_two_phase (fs : FS) (ops : Ops) (a : App)
    (hmenu : a.state = .menu) :
    (a.menuSel = some 1 →
        handleKey fs ops a .enter
          = (some { a with state := .installing .winget }, [])
      ∧ step fs ops a (some .enter)
          = (some { a with state := .result ops.installWinget.1 ops.installWinget.2 },
             [.drawUI .menu, .drawInstallWait .winget, .callInstall .winget]))
  ∧ (a.menuSel = some 3 →
        handleKey fs ops a .enter
          = (some { a with state := .installing .netBird }, [])
      ∧ step fs ops a (some .enter)
          = (some { a with state := .result ops.installNetbird.1 ops.installNetbird.2 },
             [.drawUI .menu, .drawInstallWait .netBird, .callInstall .netBird])) := by
  constructor <;> intro hsel
  · have hk : handleKey fs ops a .enter
        = (some { a with state := .installing .winget }, []) := by
      unfold handleKey
      simp only [hmenu, hsel]
    refine ⟨hk, ?_⟩
    unfold step
    simp only [hk]
    unfold deferredPhase
    simp [hmenu]
  · have hk : handleKey fs ops a .enter
        = (some { a with state := .installing .netBird }, []) := by
      unfold handleKey
      simp only [hmenu, hsel]
    refine ⟨hk, ?_⟩
    unfold step
    simp only [hk]
    unfold deferredPhase
    simp [hmenu]

/-- Witness for C2: confirming "Install Winget" in the fixture menu. -/
theorem long_running_two_phase_witness :
    handleKey wFS wOps wMenu1 .enter
      = (some { wMenu1 with state := .installing .winget }, [])
  ∧ step wFS wOps wMenu1 (some .enter)
      = (some { wMenu1 with state := .result wOps.installWinget.1 wOps.installWinget.2 },
         [.drawUI .menu, .drawInstallWait .winget, .callInstall .winget]) :=
  (long_running_two_phase wFS wOps wMenu1 rfl).1 rfl

/-- Counterexample for C4 as stated: in `Restoring` with no file selected the
synthesized message is `"No file selected."` (capitalised, with a period),
not the claimed `"no file selected"`. -/
theorem no_file_selected_message_counterexample :
    deferredPhase wOps cRestoring
      = ({ cRestoring with state := .result false "No file selected." },
         [.drawRestoreWait])
    ∧ ¬ ("No file selected." = "no file selected") := by
  exact ⟨rfl, by decide⟩

/-- Claim C4 (amended): if the state is `Restoring` and no file is selected,
the next tick produces `Result{success: false, message: "No file selected."}`
— a synthesized local failure with no collaborator call, never a crash or any
other state. -/
theorem restoring_without_file_synthesizes_failure (fs : FS) (ops : Ops)
    (a : App) (h1 : a.state = .restoring) (h2 : a.selectedFile = none) :
    ∀ k : Option Key, step fs ops a k
      = (some { a with state := .result false "No file selected." },
         [.drawUI .restoring, .drawRestoreWait]) := by
  intro k
  have habs : ∀ kk, handleKey fs ops a kk = (some a, []) := by
    intro kk
    unfold handleKey
    simp only [h1]
  unfold step
  cases k <;> simp only [habs] <;> unfold deferredPhase <;> simp [h1, h2]

/-- Witness for the amended C4 at the forced fixture state. -/
theorem restoring_without_file_synthesizes_failure_witness :
    step wFS wOps cRestoring none
      = (some { cRestoring with state := .result false "No file selected." },
         [.drawUI .restoring, .drawRestoreWait]) :=
  restoring_without_file_synthesizes_failure wFS wOps cRestoring rfl rfl none

/-- Claim C5: confirming in `FileBrowser` on the synthetic parent entry
navigates to the parent and re-lists, staying in `FileBrowser`; on a
directory entry it re-lists that directory, staying in `FileBrowser`; on a
file entry it records the path as the selected file and transitions to
`Restoring`, with no navigation (current directory and listing untouched). -/
theorem file_browser_confirm_semantics (fs : FS) (ops : Ops) (a : App)
    (i : Nat) (p : Path)
    (hstate : a.state = .fileBrowser)
    (hsel : a.fileSel = some i)
    (hget : a.dirEntries[i]? = some p) :
    (p = parentSentinel →
        ∀ par, parentDir a.currentDir = some par →
          handleKey fs ops a .enter
            = (some (loadDirectory fs { a with currentDir := par }), [])
          ∧ (loadDirectory fs { a with currentDir := par }).state = .fileBrowser)
  ∧ (p ≠ parentSentinel → fs.isDir p = true →
        handleKey fs ops a .enter
          = (some (loadDirectory fs { a with currentDir := p }), [])
        ∧ (loadDirectory fs { a with currentDir := p }).state = .fileBrowser)
  ∧ (p ≠ parentSentinel → fs.isDir p = false →
        handleKey fs ops a .enter
          = (some { a with selectedFile := some p, state := .restoring }, [])) := by
  refine ⟨fun hp par hpar => ?_, fun hp hdir => ?_, fun hp hdir => ?_⟩
  · have hfbs : fileBrowserSelect fs a
        = (loadDirectory fs { a with currentDir := par }, none) := by
      unfold fileBrowserSelect
      simp only [hsel, hget, hp, hpar, if_pos]
    constructor
    · unfold handleKey
      simp only [hstate, hfbs]
    · rw [loadDirectory_state]
      exact hstate
  · have hfbs : fileBrowserSelect fs a
        = (loadDirectory fs { a with currentDir := p }, none) := by
      unfold fileBrowserSelect
      simp only [hsel, hget]
      rw [if_neg hp, if_pos hdir]
    constructor
    · unfold handleKey
      simp only [hstate, hfbs]
    · rw [loadDirectory_state]
      exact hstate
  · have hfbs : fileBrowserSelect fs a = (a, some p) := by
      unfold fileBrowserSelect
      simp only [hsel, hget]
      rw [if_neg hp, if_neg (by simp [hdir])]
    unfold handleKey
    simp only [hstate, hfbs]

/-- Witness for C5: confirming the file `a.xml` in the fixture browser sets
the selected file and enters `Restoring`. -/
theorem file_browser_confirm_semantics_witness :
    handleKey wFS wOps wBrowser.fileBrowserNext .enter
      = (some { wBrowser.fileBrowserNext with
                  selectedFile := some ["C:", "Docs", "a.xml"],
                  state := .restoring }, []) :=
  (file_browser_confirm_semantics wFS wOps wBrowser.fileBrowserNext 1
      ["C:", "Docs", "a.xml"] rfl (by decide) (by decide)).2.2
    (by decide) (by decide)

/-- Claim C6: for every list of length `len ≥ 1` and selected index
`i < len`, `next` moves the selection to `(i + 1) % len` and `previous` moves
it to `(i + len - 1) % len`, for the menu cursor as well as the file-browser
cursor; in particular, in the 7-item menu with the cursor at 0, pressing
"up" moves the cursor to 6. -/
theorem wrap_around_selection (fs : FS) (ops : Ops) (a : App) (i : Nat) :
    (a.menuSel = some i → i < a.menuItems.length →
        a.next.menuSel = some ((i + 1) % a.menuItems.length)
      ∧ a.previous.menuSel
          = some ((i + a.menuItems.length - 1) % a.menuItems.length))
  ∧ (a.fileSel = some i → i < a.dirEntries.length →
        a.fileBrowserNext.fileSel = some ((i + 1) % a.dirEntries.length)
      ∧ a.fileBrowserPrevious.fileSel
          = some ((i + a.dirEntries.length - 1) % a.dirEntries.length))
  ∧ (a.state = .menu → a.menuItems = defaultMenuItems → a.menuSel = some 0 →
        handleKey fs ops a .up = (some { a with menuSel := some 6 }, [])) := by
  refine ⟨fun hsel hlt => ⟨?_, ?_⟩, fun hsel hlt => ⟨?_, ?_⟩, fun hs hm hsel => ?_⟩
  · by_cases hge : i ≥ a.menuItems.length - 1
    · have h1 : i + 1 = a.menuItems.length := by omega
      simp [App.next, hsel, hge, h1, Nat.mod_self]
    · have h2 : (i + 1) % a.menuItems.length = i + 1 := Nat.mod_eq_of_lt (by omega)
      simp [App.next, hsel, hge, h2]
  · by_cases h0 : i = 0
    · subst h0
      have h2 : (0 + a.menuItems.length - 1) % a.menuItems.length
          = a.menuItems.length - 1 := by
        rw [Nat.zero_add]
        exact Nat.mod_eq_of_lt (by omega)
      simp [App.previous, hsel, h2]
    · have h2 : (i + a.menuItems.length - 1) % a.menuItems.length = i - 1 := by
        have h3 : i + a.menuItems.length - 1 = (i - 1) + a.menuItems.length := by omega
        rw [h3, Nat.add_mod_right]
        exact Nat.mod_eq_of_lt (by omega)
      simp [App.previous, hsel, h0, h2]
  · have hne : ¬ a.dirEntries.isEmpty = true := by
      cases hd : a.dirEntries
      · rw [hd] at hlt; simp at hlt
      · simp [hd]
    by_cases hge : i ≥ a.dirEntries.length - 1
    · have h1 : i + 1 = a.dirEntries.length := by omega
      simp [App.fileBrowserNext, hne, hsel, hge, h1, Nat.mod_self]
    · have h2 : (i + 1) % a.dirEntries.length = i + 1 := Nat.mod_eq_of_lt (by omega)
      simp [App.fileBrowserNext, hne, hsel, hge, h2]
  · have hne : ¬ a.dirEntries.isEmpty = true := by
      cases hd : a.dirEntries
      · rw [hd] at hlt; simp at hlt
      · simp [hd]
    by_cases h0 : i = 0
    · subst h0
      have h2 : (0 + a.dirEntries.length - 1) % a.dirEntries.length
          = a.dirEntries.length - 1 := by
        rw [Nat.zero_add]
        exact Nat.mod_eq_of_lt (by omega)
      simp [App.fileBrowserPrevious, hne, hsel, h2]
    · have h2 : (i + a.dirEntries.length - 1) % a.dirEntries.length = i - 1 := by
        have h3 : i + a.dirEntries.length - 1 = (i - 1) + a.dirEntries.length := by omega
        rw [h3, Nat.add_mod_right]
        exact Nat.mod_eq_of_lt (by omega)
      simp [App.fileBrowserPrevious, hne, hsel, h0, h2]
  · have hprev : a.previous = { a with menuSel := some 6 } := by
      simp [App.previous, hsel, hm, defaultMenuItems]
    unfold handleKey
    simp only [hs, hprev]

/-- Witness for C6: in the fresh 7-item menu at index 0, "up" wraps to 6. -/
theorem wrap_around_selection_witness :
    ((App.new wDir).menuSel = some 0 ∧ 0 < (App.new wDir).menuItems.length
      ∧ (App.new wDir).previous.menuSel = some 6)
  ∧ handleKey wFS wOps (App.new wDir) .up
      = (some { App.new wDir with menuSel := some 6 }, []) := by
  have h := wrap_around_selection wFS wOps (App.new wDir) 0
  refine ⟨⟨rfl, by decide, ?_⟩, h.2.2 rfl rfl rfl⟩
  have h2 := (h.1 rfl (by decide)).2
  simpa using h2

/-- On a non-empty menu list the fallible embedding of `App::next` agrees
with the total one: the `len - 1` subtraction cannot underflow. -/
theorem menuNextChecked_eq_next (a : App) (h : a.menuItems ≠ []) :
    menuNextChecked a = some a.next := by
  unfold menuNextChecked App.next
  cases hl : a.menuItems.length with
  | zero => exact absurd (List.length_eq_zero.mp hl) h
  | succ n =>
      cases a.menuSel with
      | none => rfl
      | some i => simp [hl, Nat.succ_sub_one]

/-- On a non-empty menu list the fallible embedding of `App::previous` agrees
with the total one. -/
theorem menuPreviousChecked_eq_previous (a : App) (h : a.menuItems ≠ []) :
    menuPreviousChecked a = some a.previous := by
  unfold menuPreviousChecked App.previous
  cases hl : a.menuItems.length with
  | zero => exact absurd (List.length_eq_zero.mp hl) h
  | succ n =>
      cases a.menuSel with
      | none => rfl
      | some i =>
          by_cases h0 : i = 0 <;> simp [h0, hl, Nat.succ_sub_one]

/-- Counterexample for C7 as stated: the claim also covers the unguarded menu
`App::next` / `App::previous` (its cited sources), and for those it fails on
a length-0 list: `next` evaluates the underflowing `len - 1` (debug panic,
`none` in the fallible embedding; release builds wrap and select `Some(i+1)`),
and `previous` with selected index 1 performs no length subtraction at all
and moves the selection to `Some(0)` — in no case is the selection "none"
afterwards, nor is the operation a no-op. -/
theorem menu_empty_list_counterexample :
    emptyMenu.menuItems.length = 0
  ∧ menuNextChecked emptyMenu = none
  ∧ menuPreviousChecked emptyMenu = some emptyMenu.previous
  ∧ emptyMenu.previous.menuSel = some 0
  ∧ ¬ emptyMenu.previous.menuSel = none
  ∧ ¬ emptyMenu.previous = emptyMenu :=
  ⟨rfl, rfl, rfl, rfl, by decide, by decide⟩

/-- Claim C7 (amended): the guarded file-browser `next`/`previous` on a list
of length 0 never panic and are no-ops (the embedding is a total function
mirroring the guarded Rust code), and in every reachable such state the
selection is and stays "none"; the unguarded menu pair does not satisfy the
claim (see the counterexample) but is only ever used on the fixed 7-item
menu. -/
theorem empty_list_navigation_noop (d : Path) (a : App)
    (h : a.dirEntries = []) :
    a.fileBrowserNext = a ∧ a.fileBrowserPrevious = a
  ∧ (Reachable d a →
        a.fileSel = none ∧ a.fileBrowserNext.fileSel = none
          ∧ a.fileBrowserPrevious.fileSel = none) := by
  have hn : a.fileBrowserNext = a := by
    unfold App.fileBrowserNext
    simp [h]
  have hp : a.fileBrowserPrevious = a := by
    unfold App.fileBrowserPrevious
    simp [h]
  refine ⟨hn, hp, fun hr => ?_⟩
  have h1 := (reachable_inv d a hr).1 h
  exact ⟨h1, by rw [hn]; exact h1, by rw [hp]; exact h1⟩

/-- Witness for C7 at the initial state, whose listing is empty. -/
theorem empty_list_navigation_noop_witness :
    (App.new wDir).fileBrowserNext = App.new wDir
  ∧ (App.new wDir).fileBrowserPrevious = App.new wDir
  ∧ ((App.new wDir).fileSel = none
      ∧ (App.new wDir).fileBrowserNext.fileSel = none
      ∧ (App.new wDir).fileBrowserPrevious.fileSel = none) := by
  have h := empty_list_navigation_noop wDir (App.new wDir) rfl
  exact ⟨h.1, h.2.1, h.2.2 .init⟩

/-- Counterexample for C9 as stated: confirming the restore menu item
re-enters the browser but does not clear the selected file — a stale
selection survives, so it is not "cleared back to none". -/
theorem reenter_browser_keeps_selected_file :
    handleKey wFS wOps menuSel5App .enter
      = (some { loadDirectory wFS menuSel5App with state := .fileBrowser }, [])
    ∧ ({ loadDirectory wFS menuSel5App with state := .fileBrowser }).state
        = .fileBrowser
    ∧ ¬ ({ loadDirectory wFS menuSel5App with state := .fileBrowser }).selectedFile
        = none
    ∧ ({ loadDirectory wFS menuSel5App with state := .fileBrowser }).selectedFile
        = some ["C:", "old.xml"] := by
  exact ⟨rfl, rfl, by decide, rfl⟩

/-- Claim C9 (amended): re-entering the file browser (confirm on the restore
menu item) rebuilds the browser model and transitions to `FileBrowser`, but
leaves the selected-file value unchanged rather than clearing it; the stale
value is only ever overwritten when a new file is confirmed. -/
theorem reenter_browser_selected_file_unchanged (fs : FS) (ops : Ops)
    (a : App) (h1 : a.state = .menu) (h2 : a.menuSel = some 5) :
    handleKey fs ops a .enter
      = (some { loadDirectory fs a with state := .fileBrowser }, [])
    ∧ (loadDirectory fs a).selectedFile = a.selectedFile := by
  constructor
  · unfold handleKey
    simp only [h1, h2]
  · exact loadDirectory_selectedFile fs a

/-- Witness for the amended C9 at the fixture with a stale selection. -/
theorem reenter_browser_selected_file_unchanged_witness :
    handleKey wFS wOps menuSel5App .enter
      = (some { loadDirectory wFS menuSel5App with state := .fileBrowser }, [])
    ∧ (loadDirectory wFS menuSel5App).selectedFile = menuSel5App.selectedFile :=
  reenter_browser_selected_file_unchanged wFS wOps menuSel5App rfl rfl

/-- Claim C10: in every state reachable from the initial application state,
`Restoring` implies a selected file is present, so the deferred phase always
performs the real restore call on that file — the synthesized
"No file selected." branch is unreachable in any run. -/
theorem restoring_always_has_file (d : Path) (a : App)
    (h : Reachable d a) (hs : a.state = .restoring) :
    ∃ f, a.selectedFile = some f
      ∧ ∀ ops : Ops, deferredPhase ops a
          = ({ a with state := .result (ops.restoreRoles f).1 (ops.restoreRoles f).2 },
             [.drawRestoreWait, .callRestore f]) := by
  obtain ⟨f, hf⟩ := (reachable_inv d a h).2 hs
  refine ⟨f, hf, fun ops => ?_⟩
  unfold deferredPhase
  simp only [hs, hf]

/-- Witness for C10 at the reachable fixture `Restoring` state. -/
theorem restoring_always_has_file_witness :
    ∃ f, wRestoring.selectedFile = some f
      ∧ ∀ ops : Ops, deferredPhase ops wRestoring
          = ({ wRestoring with
                state := .result (ops.restoreRoles f).1 (ops.restoreRoles f).2 },
             [.drawRestoreWait, .callRestore f]) :=
  restoring_always_has_file wDir wRestoring wRestoring_reachable rfl

end ServerHelper
